import Mathlib

/-!
Verification development for the regrada capture-and-regression pipeline.

This file gives a shallow embedding, in Lean 4, of the parts of the Go
repository `regrada-ai/regrada` that the checked claims are about:

* the regular-expression redactor (`internal/trace/redact.go`),
* the trace model and trace store (`internal/trace/model.go`),
* baseline construction and fingerprinting (`internal/baseline/*.go`,
  `internal/util/hash.go`, `internal/util/slug.go`),
* the diff engine (`internal/diff`),
* the policy engine (`internal/policy`) with its config validation
  (`internal/config/validation.go`),
* request/response extraction in the recorders (`internal/record/*.go`).

Embedding conventions:

* Go `float64` values are embedded as `ℚ`; all the arithmetic the claims
  touch (sums of counts divided by counts, subtraction, comparison) is exact
  on the values the code produces, so no floating-point rounding is modelled.
* Go `int` is embedded as `Int`, `time.Time` as `Nat` (UTC nanoseconds since
  the epoch; `IsZero` becomes `= 0`).
* Go regular expressions are embedded as an explicit AST (`Re`) together
  with a backtracking matcher with Go's leftmost-first, greedy-preference
  semantics.  The concrete patterns of the repository are written as `Re`
  values next to a comment quoting the source pattern.
* JSON bodies handled with `encoding/json` are embedded as an inductive
  `Json`; a raw request/response body is a `Body`, carrying the raw text
  together with the result of unmarshalling it into `map[string]any`
  (`none` when unmarshalling fails).
-/

/-! ## Regular expressions (Go `regexp`, as used by redact.go and policy) -/

/-- Regular-expression AST covering the constructs used by the repository's
patterns: single-character classes, concatenation, alternation, greedy
Kleene star, the empty regex, and the word boundary `\b`. -/
inductive Re where
  | eps : Re
  | cls : (Char → Bool) → Re
  | seq : Re → Re → Re
  | alt : Re → Re → Re
  | star : Re → Re
  | wordB : Re

/-- Word character for Go's `\b` (ASCII letters, digits, underscore). -/
def isWordChar (c : Char) : Bool :=
  c.isAlpha || c.isDigit || c = '_'

/-- Whether a word boundary lies between the previously consumed character
and the rest of the input. -/
def atWordBoundary (last : Option Char) (s : List Char) : Bool :=
  (match last with | none => false | some c => isWordChar c)
    != (match s with | [] => false | c :: _ => isWordChar c)

/-- Backtracking matcher in continuation-passing style.  The continuation
receives the last consumed character (for `\b`) and the remaining input;
alternation prefers the left branch and star is greedy, which is Go's
(leftmost-first) preference order.  Fuel makes the recursion structural;
every call site supplies ample fuel for the repository's patterns, whose
starred bodies all consume at least one character. -/
def matchRe : Nat → Re → Option Char → List Char →
    (Option Char → List Char → Option (Option Char × List Char)) →
    Option (Option Char × List Char)
  | 0, _, _, _, _ => none
  | fuel + 1, re, last, s, k =>
    match re with
    | .eps => k last s
    | .wordB => if atWordBoundary last s then k last s else none
    | .cls p =>
      match s with
      | [] => none
      | c :: rest => if p c then k (some c) rest else none
    | .seq a b => matchRe fuel a last s (fun l2 s2 => matchRe fuel b l2 s2 k)
    | .alt a b =>
      (matchRe fuel a last s k).orElse (fun _ => matchRe fuel b last s k)
    | .star a =>
      (matchRe fuel a last s
        (fun l2 s2 => matchRe fuel (.star a) l2 s2 k)).orElse (fun _ => k last s)

/-- Node count of a regex, used to size the matcher's fuel. -/
def reSize : Re → Nat
  | .eps => 1
  | .cls _ => 1
  | .seq a b => reSize a + reSize b + 1
  | .alt a b => reSize a + reSize b + 1
  | .star a => reSize a + 1
  | .wordB => 1

/-- Fuel that is ample for matching `re` against `s` (each star iteration of
the repository's patterns consumes at least one character). -/
def reFuel (re : Re) (s : List Char) : Nat :=
  (reSize re + 2) * (s.length + 2)

/-- Attempt to match `re` at the start of `s` (with `last` the character just
before `s` in the original input).  On success returns the last consumed
character and the remaining suffix of the preferred match. -/
def tryMatch (re : Re) (last : Option Char) (s : List Char) :
    Option (Option Char × List Char) :=
  matchRe (reFuel re s) re last s (fun l r => some (l, r))

/-- Whether `re` matches anywhere in the input starting from some position;
`last` is the character before the current position. -/
def matchFrom (re : Re) (last : Option Char) (s : List Char) : Bool :=
  match s with
  | [] => (tryMatch re last []).isSome
  | c :: rest => (tryMatch re last (c :: rest)).isSome || matchFrom re (some c) rest

/-- Go `regexp.MatchString`. -/
def reMatchString (re : Re) (s : String) : Bool :=
  matchFrom re none s.data

/-- Replacement scan: find successive leftmost matches, emit the replacement
for each, copy unmatched characters.  An empty match emits the replacement
and advances one character, as Go does. -/
def replaceFrom : Nat → Re → List Char → Option Char → List Char → List Char
  | 0, _, _, _, s => s
  | fuel + 1, re, repl, last, s =>
    match tryMatch re last s with
    | some (l2, rest) =>
      if rest.length = s.length then
        match s with
        | [] => repl
        | c :: t => repl ++ c :: replaceFrom fuel re repl (some c) t
      else repl ++ replaceFrom fuel re repl l2 rest
    | none =>
      match s with
      | [] => []
      | c :: t => c :: replaceFrom fuel re repl (some c) t

/-- Go `regexp.ReplaceAllString` (for literal replacement strings, which is
all the repository uses). -/
def reReplaceAll (re : Re) (s repl : String) : String :=
  String.mk (replaceFrom (s.data.length + 1) re repl.data none s.data)

/-! ### The repository's concrete patterns -/

/-- Single-character regex. -/
def chr (c : Char) : Re := .cls (fun x => x = c)

/-- Case-insensitive literal, one regex per character (models a `(?i)`
literal). -/
def litCI (s : String) : Re :=
  s.data.foldr (fun c acc => .seq (.cls (fun x => x.toLower = c.toLower)) acc) .eps

/-- One or more repetitions (greedy). -/
def rePlus (a : Re) : Re := .seq a (.star a)

/-- Zero or one repetition (greedy: prefers presence). -/
def reOpt (a : Re) : Re := .alt a .eps

/-- Exactly `n` repetitions. -/
def repExact : Nat → Re → Re
  | 0, _ => .eps
  | n + 1, a => .seq a (repExact n a)

/-- At least `n` repetitions (greedy). -/
def repAtLeast (n : Nat) (a : Re) : Re := .seq (repExact n a) (.star a)

/-- Character class `[A-Za-z0-9._%+-]` (the email local part). -/
def emailLocalChar (c : Char) : Bool :=
  c.isAlpha || c.isDigit || c = '.' || c = '_' || c = '%' || c = '+' || c = '-'

/-- Character class `[A-Za-z0-9.-]` (the email domain part). -/
def emailDomainChar (c : Char) : Bool :=
  c.isAlpha || c.isDigit || c = '.' || c = '-'

/-- Go `\s` inside a class: `[\t\n\v\f\r ]`. -/
def goSpaceChar (c : Char) : Bool :=
  c = ' ' || c = '\t' || c = '\n' || c = '\x0b' || c = '\x0c' || c = '\r'

/-- Character class `[\d\s().-]` (the phone pattern's middle). -/
def phoneMidChar (c : Char) : Bool :=
  c.isDigit || goSpaceChar c || c = '(' || c = ')' || c = '.' || c = '-'

/-- Email pattern `[A-Za-z0-9._%+-]+@[A-Za-z0-9.-]+\.[A-Za-z]{2,}`
(redact.go presets and policy piiPatterns). -/
def emailRe : Re :=
  .seq (rePlus (.cls emailLocalChar))
    (.seq (chr '@')
      (.seq (rePlus (.cls emailDomainChar))
        (.seq (chr '.') (repAtLeast 2 (.cls Char.isAlpha)))))

/-- Phone pattern `\+?\d[\d\s().-]{7,}\d`. -/
def phoneRe : Re :=
  .seq (reOpt (chr '+'))
    (.seq (.cls Char.isDigit)
      (.seq (repAtLeast 7 (.cls phoneMidChar)) (.cls Char.isDigit)))

/-- SSN pattern `\b\d{3}-\d{2}-\d{4}\b`. -/
def ssnRe : Re :=
  .seq .wordB
    (.seq (repExact 3 (.cls Char.isDigit))
      (.seq (chr '-')
        (.seq (repExact 2 (.cls Char.isDigit))
          (.seq (chr '-')
            (.seq (repExact 4 (.cls Char.isDigit)) .wordB)))))

/-- Secrets pattern `(?i)(api[-_ ]?key|secret|token)[^\n\r]*`. -/
def secretsRe : Re :=
  .seq
    (.alt (.seq (litCI "api") (.seq (reOpt (.cls (fun c => c = '-' || c = '_' || c = ' '))) (litCI "key")))
      (.alt (litCI "secret") (litCI "token")))
    (.star (.cls (fun c => !(c = '\n') && !(c = '\r'))))

/-! ## Data model (internal/model/types.go, internal/trace/model.go) -/

/-- Chat message (`model.Message`). -/
structure Message where
  role : String
  content : String
deriving DecidableEq, Repr

/-- Sampling parameters (`model.SamplingParams`); all fields optional
("unset" is distinct from the zero value). -/
structure SamplingParams where
  temperature : Option ℚ
  topP : Option ℚ
  maxOutputTokens : Option Int
  stop : List String
deriving DecidableEq, Repr

/-- Tool call (`model.ToolCall`); raw JSON payloads are kept as strings. -/
structure ToolCall where
  id : String
  name : String
  arguments : String
  response : String
deriving DecidableEq, Repr

/-- Normalized request of a trace (`trace.TraceRequest`). -/
structure TraceRequest where
  messages : List Message
  params : Option SamplingParams
deriving DecidableEq, Repr

/-- Normalized response of a trace (`trace.TraceResponse`); `raw` holds the
raw response bytes as text. -/
structure TraceResponse where
  assistantText : String
  toolCalls : List ToolCall
  raw : String
deriving DecidableEq, Repr

/-- Trace metrics (`trace.TraceMetrics`). -/
structure TraceMetrics where
  latencyMS : Int
  tokensIn : Int
  tokensOut : Int
deriving DecidableEq, Repr

/-- One captured request/response pair (`trace.Trace`).  `timestamp` is UTC
nanoseconds since the epoch (`time.Time`; zero means unset). -/
structure Trace where
  traceID : String
  timestamp : Nat
  provider : String
  model : String
  environment : String
  gitSHA : String
  request : TraceRequest
  response : TraceResponse
  metrics : TraceMetrics
  redactionApplied : List String
deriving DecidableEq, Repr

/-! ## Redactor (internal/trace/redact.go) -/

/-- A configured redaction rule (`config.RedactPattern`); the regex is
embedded as its compiled AST, since regex compilation of the repository's
patterns is total. -/
structure RedactPattern where
  name : String
  regex : Re
  replaceWith : String

/-- Compiled redaction rule (`trace.compiledPattern`). -/
structure CompiledPattern where
  name : String
  regex : Re
  replaceWith : String

/-- The regex redactor (`trace.RegexRedactor`). -/
structure RegexRedactor where
  patterns : List CompiledPattern

/-- `trace.NewRedactor`: compile a rule list.  The Go function can only fail
on an invalid regex, which cannot happen for AST-valued rules, so the
embedding is total. -/
def NewRedactor (patterns : List RedactPattern) : RegexRedactor :=
  ⟨patterns.map (fun p => ⟨p.name, p.regex, p.replaceWith⟩)⟩

/-- `trace.applyPatterns`: apply each rule in declaration order to the
running output, recording the names of rules that matched. -/
def applyPatterns (input : String) (patterns : List CompiledPattern) :
    String × List String :=
  if input = "" then (input, [])
  else
    patterns.foldl
      (fun acc pat =>
        if reMatchString pat.regex acc.1 then
          (reReplaceAll pat.regex acc.1 pat.replaceWith, acc.2 ++ [pat.name])
        else acc)
      (input, [])

/-- Helper for `trace.unique`: deduplicate, keeping first occurrences and
dropping empty names. -/
def uniqueAux (seen : List String) : List String → List String
  | [] => []
  | v :: rest =>
    if v = "" then uniqueAux seen rest
    else if v ∈ seen then uniqueAux seen rest
    else v :: uniqueAux (v :: seen) rest

/-- `trace.unique`. -/
def unique (values : List String) : List String :=
  if values = [] then [] else uniqueAux [] values

/-- Per-message step of `Apply`'s loop over `t.Request.Messages`: apply the
patterns to the message content, updating it and collecting the fired rule
names when anything matched. -/
def redactMsgStep (pats : List CompiledPattern)
    (acc : List Message × List String) (msg : Message) :
    List Message × List String :=
  let res := applyPatterns msg.content pats
  if res.2.length > 0 then
    (acc.1 ++ [{ msg with content := res.1 }], acc.2 ++ res.2)
  else (acc.1 ++ [msg], acc.2)

/-- `(*RegexRedactor).Apply`: redact every message content and the response
text; the Go method mutates the trace and returns the fired rule names, the
embedding returns the new trace together with that list. -/
def RegexRedactor.Apply (r : RegexRedactor) (t : Trace) : Trace × List String :=
  let msgStep := t.request.messages.foldl (redactMsgStep r.patterns) ([], [])
  let t1 := { t with request := { t.request with messages := msgStep.1 } }
  let step2 :=
    if t1.response.assistantText ≠ "" then
      let res := applyPatterns t1.response.assistantText r.patterns
      if res.2.length > 0 then
        ({ t1 with response := { t1.response with assistantText := res.1 } },
          msgStep.2 ++ res.2)
      else (t1, msgStep.2)
    else (t1, msgStep.2)
  (step2.1, unique step2.2)

/-- Go `strings.ToLower` (this embedding lowercases the ASCII range, which
agrees with Go on the repository's inputs).  `String.toLower` itself is not
used because its byte-position recursion does not reduce definitionally. -/
def lowerStr (s : String) : String := String.mk (s.data.map Char.toLower)

/-- `trace.PresetPatterns`: the preset rule bundles.  Pattern source texts:
email `[A-Za-z0-9._%+-]+@[A-Za-z0-9.-]+\.[A-Za-z]{2,}`, phone
`\+?\d[\d\s().-]{7,}\d`, ssn `\b\d{3}-\d{2}-\d{4}\b`, api_key
`(?i)(api[-_ ]?key|secret|token)[^\n\r]*`. -/
def PresetPatterns (presets : List String) : List RedactPattern :=
  presets.foldl
    (fun acc preset =>
      if lowerStr preset = "pii_basic" then
        acc ++ [⟨"email", emailRe, "[REDACTED_EMAIL]"⟩,
                ⟨"phone", phoneRe, "[REDACTED_PHONE]"⟩]
      else if lowerStr preset = "pii_strict" then
        acc ++ [⟨"email", emailRe, "[REDACTED_EMAIL]"⟩,
                ⟨"phone", phoneRe, "[REDACTED_PHONE]"⟩,
                ⟨"ssn", ssnRe, "[REDACTED_SSN]"⟩]
      else if lowerStr preset = "secrets" then
        acc ++ [⟨"api_key", secretsRe, "[REDACTED_SECRET]"⟩]
      else acc)
    []

/-! ## Hashing and slugs (internal/util/hash.go, internal/util/slug.go) -/

/-- UTF-8 encoding of one character (Go `[]byte(string)`). -/
def utf8Char (c : Char) : List Nat :=
  let n := c.toNat
  if n < 0x80 then [n]
  else if n < 0x800 then
    [0xC0 ||| (n >>> 6), 0x80 ||| (n &&& 0x3F)]
  else if n < 0x10000 then
    [0xE0 ||| (n >>> 12), 0x80 ||| ((n >>> 6) &&& 0x3F), 0x80 ||| (n &&& 0x3F)]
  else
    [0xF0 ||| (n >>> 18), 0x80 ||| ((n >>> 12) &&& 0x3F),
     0x80 ||| ((n >>> 6) &&& 0x3F), 0x80 ||| (n &&& 0x3F)]

/-- UTF-8 bytes of a string. -/
def utf8Bytes (s : String) : List Nat :=
  s.data.foldr (fun c acc => utf8Char c ++ acc) []

/-- Reduce modulo `2^32` (all SHA-256 word arithmetic). -/
def m32 (x : Nat) : Nat := x % 4294967296

/-- Rotate a 32-bit word right by `n`. -/
def rotr32 (n x : Nat) : Nat := m32 ((x >>> n) ||| (x <<< (32 - n)))

/-- SHA-256 Σ0. -/
def bsig0 (x : Nat) : Nat := (rotr32 2 x) ^^^ (rotr32 13 x) ^^^ (rotr32 22 x)

/-- SHA-256 Σ1. -/
def bsig1 (x : Nat) : Nat := (rotr32 6 x) ^^^ (rotr32 11 x) ^^^ (rotr32 25 x)

/-- SHA-256 σ0. -/
def ssig0 (x : Nat) : Nat := (rotr32 7 x) ^^^ (rotr32 18 x) ^^^ (x >>> 3)

/-- SHA-256 σ1. -/
def ssig1 (x : Nat) : Nat := (rotr32 17 x) ^^^ (rotr32 19 x) ^^^ (x >>> 10)

/-- SHA-256 Ch. -/
def chF (e f g : Nat) : Nat := (e &&& f) ^^^ ((0xFFFFFFFF ^^^ e) &&& g)

/-- SHA-256 Maj. -/
def majF (a b c : Nat) : Nat := (a &&& b) ^^^ (a &&& c) ^^^ (b &&& c)

/-- SHA-256 round constants. -/
def sha256K : List Nat :=
  [1116352408, 1899447441, 3049323471, 3921009573, 961987163,
   1508970993, 2453635748, 2870763221, 3624381080, 310598401,
   607225278, 1426881987, 1925078388, 2162078206, 2614888103,
   3248222580, 3835390401, 4022224774, 264347078, 604807628,
   770255983, 1249150122, 1555081692, 1996064986, 2554220882,
   2821834349, 2952996808, 3210313671, 3336571891, 3584528711,
   113926993, 338241895, 666307205, 773529912, 1294757372,
   1396182291, 1695183700, 1986661051, 2177026350, 2456956037,
   2730485921, 2820302411, 3259730800, 3345764771, 3516065817,
   3600352804, 4094571909, 275423344, 430227734, 506948616,
   659060556, 883997877, 958139571, 1322822218, 1537002063,
   1747873779, 1955562222, 2024104815, 2227730452, 2361852424,
   2428436474, 2756734187, 3204031479, 3329325298]

/-- SHA-256 initial hash values. -/
def sha256H0 : List Nat :=
  [1779033703, 3144134277, 1013904242, 2773480762,
   1359893119, 2600822924, 528734635, 1541459225]

/-- Big-endian 8-byte encoding. -/
def be64 (n : Nat) : List Nat :=
  [(n >>> 56) &&& 255, (n >>> 48) &&& 255, (n >>> 40) &&& 255, (n >>> 32) &&& 255,
   (n >>> 24) &&& 255, (n >>> 16) &&& 255, (n >>> 8) &&& 255, n &&& 255]

/-- SHA-256 message padding. -/
def sha256Pad (msg : List Nat) : List Nat :=
  let len := msg.length
  let zeros := (120 - ((len + 1) % 64)) % 64
  msg ++ [0x80] ++ List.replicate zeros 0 ++ be64 (len * 8)

/-- Group four big-endian bytes into one 32-bit word. -/
def toWords : List Nat → List Nat
  | a :: b :: c :: d :: rest => ((((a <<< 8) ||| b) <<< 8 ||| c) <<< 8 ||| d) :: toWords rest
  | _ => []

/-- Extend the 16-word message block to the 64-word schedule. -/
def sha256Extend : Nat → Array Nat → Array Nat
  | 0, w => w
  | n + 1, w =>
    let i := w.size
    let x := m32 (ssig1 (w.getD (i - 2) 0) + w.getD (i - 7) 0 +
      ssig0 (w.getD (i - 15) 0) + w.getD (i - 16) 0)
    sha256Extend n (w.push x)

/-- SHA-256 compression rounds over the zipped `(k, w)` list. -/
def sha256Comp : List (Nat × Nat) → List Nat → List Nat
  | [], st => st
  | (k, w) :: rest, st =>
    match st with
    | [a, b, c, d, e, f, g, h] =>
      let t1 := m32 (h + bsig1 e + chF e f g + k + w)
      let t2 := m32 (bsig0 a + majF a b c)
      sha256Comp rest [m32 (t1 + t2), a, b, c, m32 (d + t1), e, f, g]
    | other => other

/-- Split padded bytes into 64-byte blocks (fuel-bounded for structural
recursion; callers pass at least the byte count). -/
def chunks64 : Nat → List Nat → List (List Nat)
  | 0, _ => []
  | n + 1, bytes =>
    if bytes = [] then [] else bytes.take 64 :: chunks64 n (bytes.drop 64)

/-- Process all blocks from the initial hash state. -/
def sha256Process (h0 : List Nat) (blocks : List (List Nat)) : List Nat :=
  blocks.foldl
    (fun h block =>
      let w := sha256Extend 48 (Array.mk (toWords block))
      let st := sha256Comp (sha256K.zip w.toList) h
      (h.zip st).map (fun p => m32 (p.1 + p.2)))
    h0

/-- Low hex digit. -/
def hexDigit (n : Nat) : Char :=
  if n < 10 then Char.ofNat (48 + n) else Char.ofNat (87 + n)

/-- Two hex digits of a byte. -/
def byteHex (b : Nat) : List Char := [hexDigit ((b >>> 4) % 16), hexDigit (b &&& 15)]

/-- Big-endian bytes of a 32-bit word. -/
def wordBytes (w : Nat) : List Nat :=
  [(w >>> 24) &&& 255, (w >>> 16) &&& 255, (w >>> 8) &&& 255, w &&& 255]

/-- Hex encoding of the SHA-256 digest of a string's UTF-8 bytes. -/
def sha256Hex (s : String) : String :=
  let padded := sha256Pad (utf8Bytes s)
  let h := sha256Process sha256H0 (chunks64 (padded.length + 1) padded)
  String.mk ((h.foldr (fun w acc => wordBytes w ++ acc) []).foldr
    (fun b acc => byteHex b ++ acc) [])

/-- `util.HashString`: hex-encoded SHA-256. -/
def HashString (value : String) : String := sha256Hex value

/-- `util.ShortHash`: first 8 hex characters of the SHA-256. -/
def ShortHash (value : String) : String :=
  let full := HashString value
  if full.length < 8 then full else full.take 8

/-- Strip leading and trailing dashes (Go `strings.Trim(s, "-")`). -/
def trimDashes (l : List Char) : List Char :=
  ((l.dropWhile (fun c => c = '-')).reverse.dropWhile (fun c => c = '-')).reverse

/-- `util.Slugify`: lowercase, keep letters and digits, collapse every other
run to a single dash, trim dashes, defaulting to "case" when empty.  (Go
uses the Unicode letter/number classes; the embedding uses their ASCII
parts, which agree on the repository's model names.) -/
def Slugify (input : String) : String :=
  let step := (lowerStr input).data.foldl
    (fun (acc : List Char × Bool) r =>
      if r.isAlpha || r.isDigit then (acc.1 ++ [r], false)
      else if !acc.2 then (acc.1 ++ ['-'], true)
      else acc)
    ([], false)
  let slug := trimDashes step.1
  if slug = [] then "case" else String.mk slug

/-! ## Evaluation results (internal/eval/eval.go) -/

namespace Eval

/-- Metrics of one run (`eval.RunMetrics`). -/
structure RunMetrics where
  latencyMS : Int
  refused : Bool
  jsonValid : Bool
deriving DecidableEq, Repr

/-- One run's result (`eval.RunResult`); raw JSON is kept as a string. -/
structure RunResult where
  runID : Int
  pass : Bool
  outputText : String
  json : String
  metrics : RunMetrics
  error : String
deriving DecidableEq, Repr

/-- Aggregate metrics over a case's runs (`eval.Aggregates`). -/
structure Aggregates where
  passRate : ℚ
  latencyP95MS : Int
  refusalRate : ℚ
  jsonValidRate : ℚ
deriving DecidableEq, Repr

/-- A case's evaluation result (`eval.CaseResult`). -/
structure CaseResult where
  caseID : String
  provider : String
  model : String
  runs : List RunResult
  aggregates : Aggregates
deriving DecidableEq, Repr

end Eval

/-! ## Baselines (internal/baseline) -/

namespace Baseline

/-- Baseline aggregate metrics (`baseline.Aggregates`). -/
structure Aggregates where
  passRate : ℚ
  latencyP95MS : Int
  refusalRate : ℚ
  jsonValidRate : ℚ
deriving DecidableEq, Repr

/-- A persisted baseline snapshot (`baseline.Baseline`). -/
structure Baseline where
  caseID : String
  baselineKey : String
  provider : String
  model : String
  paramsHash : String
  aggregates : Aggregates
  goldenText : String
  goldenJSON : String
deriving DecidableEq, Repr

/-- `baseline.FromResult`: build a baseline snapshot from a case result,
taking the golden text/JSON from the first run when one exists. -/
def FromResult (result : Eval.CaseResult) (baselineKey paramsHash : String) :
    Baseline :=
  let b : Baseline :=
    { caseID := result.caseID, baselineKey, provider := result.provider,
      model := result.model, paramsHash,
      aggregates :=
        ⟨result.aggregates.passRate, result.aggregates.latencyP95MS,
         result.aggregates.refusalRate, result.aggregates.jsonValidRate⟩,
      goldenText := "", goldenJSON := "" }
  match result.runs with
  | [] => b
  | r0 :: _ => { b with goldenText := r0.outputText, goldenJSON := r0.json }

end Baseline

/-! ## Baseline key (internal/baseline/key.go) -/

/-- JSON string escaping as `encoding/json` performs it (quotes, backslash,
control characters, and HTML-escaped angle brackets and ampersand). -/
def jsonEscapeChar (c : Char) : List Char :=
  if c = '"' then ['\\', '"']
  else if c = '\\' then ['\\', '\\']
  else if c = '\n' then ['\\', 'n']
  else if c = '\r' then ['\\', 'r']
  else if c = '\t' then ['\\', 't']
  else if c = '<' then '\\' :: "u003c".data
  else if c = '>' then '\\' :: "u003e".data
  else if c = '&' then '\\' :: "u0026".data
  else if c.toNat < 32 then '\\' :: 'u' :: '0' :: '0' :: byteHex c.toNat
  else [c]

/-- JSON-escape a string. -/
def jsonEscape (s : String) : String :=
  String.mk (s.data.foldr (fun c a => jsonEscapeChar c ++ a) [])

/-- Quoted JSON string. -/
def jsonQuote (s : String) : String := "\"" ++ jsonEscape s ++ "\""

/-- Modelled: Go marshals `float64` with its shortest round-trip decimal
rendering; the embedding renders the rational canonically.  The rendering is
deterministic and injective, which is all `Key`'s claims use. -/
def ratJSON (q : ℚ) : String := toString q.num ++ "/" ++ toString q.den

/-- JSON encoding of `*model.SamplingParams` with its `omitempty` fields in
struct order (`null` for a nil pointer). -/
def marshalParams : Option SamplingParams → String
  | none => "null"
  | some p =>
    let fields :=
      (match p.temperature with
        | some t => ["\"temperature\":" ++ ratJSON t] | none => []) ++
      (match p.topP with
        | some t => ["\"top_p\":" ++ ratJSON t] | none => []) ++
      (match p.maxOutputTokens with
        | some m => ["\"max_output_tokens\":" ++ toString m] | none => []) ++
      (if p.stop = [] then []
       else ["\"stop\":[" ++ ",".intercalate (p.stop.map jsonQuote) ++ "]"])
    "\x7b" ++ ",".intercalate fields ++ "\x7d"

/-- Canonical serialization built by `baseline.Key`: `json.Marshal` of the
`map[string]any` payload, whose keys Go emits in sorted order
(model, params, provider, system). -/
def marshalPayload (provider model : String) (params : Option SamplingParams)
    (systemPrompt : String) : String :=
  "\x7b\"model\":" ++ jsonQuote model ++
    ",\"params\":" ++ marshalParams params ++
    ",\"provider\":" ++ jsonQuote provider ++
    ",\"system\":" ++ jsonQuote systemPrompt ++ "\x7d"

/-- `baseline.Key`: returns the baseline key and the raw short hash.  The Go
function's error return can only fire on a marshal failure, which cannot
happen for this payload, so the embedding is total. -/
def Key (provider model : String) (params : Option SamplingParams)
    (systemPrompt : String) : String × String :=
  let data := marshalPayload provider model params systemPrompt
  let hash := ShortHash data
  let slugModel := Slugify model
  let slugModel := if slugModel = "" then "model" else slugModel
  (provider ++ "-" ++ slugModel ++ "-" ++ hash, hash)

/-! ## Diff engine (internal/diff/diff.go) -/

/-- Text similarity part of a diff (`diff.TextDelta`). -/
structure TextDelta where
  tokenJaccard : ℚ
deriving DecidableEq, Repr

/-- JSON part of a diff (`diff.JSONDelta`; never populated by `Diff`). -/
structure JSONDelta where
  changedPaths : List String
deriving DecidableEq, Repr

/-- The metric-delta map built by `Diff`.  The Go map always holds exactly
the four keys `pass_rate`, `latency_p95_ms`, `refusal_rate`,
`json_valid_rate`; the embedding names them as fields. -/
structure MetricDelta where
  passRate : ℚ
  latencyP95MS : ℚ
  refusalRate : ℚ
  jsonValidRate : ℚ
deriving DecidableEq, Repr

/-- Result of diffing a run against a baseline (`diff.DiffResult`). -/
structure DiffResult where
  caseID : String
  metricDelta : MetricDelta
  textDelta : TextDelta
  jsonDelta : JSONDelta
deriving DecidableEq, Repr

/-- Accumulating scanner behind `strFields` (`cur` holds the reversed
characters of the token being built). -/
def fieldsGo : List Char → List Char → List String
  | cur, [] => if cur = [] then [] else [String.mk cur.reverse]
  | cur, c :: rest =>
    if c.isWhitespace then
      if cur = [] then fieldsGo [] rest
      else String.mk cur.reverse :: fieldsGo [] rest
    else fieldsGo (c :: cur) rest

/-- Go `strings.Fields`: the non-empty maximal runs between whitespace. -/
def strFields (s : String) : List String := fieldsGo [] s.data

/-- `diff.tokenSet`: the set of lowercased whitespace-separated tokens,
built exactly as the Go loop does (insertion into a set). -/
def tokenSet (text : String) : Finset String :=
  (strFields (lowerStr text)).foldl (fun set token => insert token set) ∅

/-- `diff.tokenJaccard`: 1 for two empty token sets, otherwise the counting
loop over `setB` (intersection count, and union as `|setA|` plus the
elements of `setB` outside `setA`). -/
def tokenJaccard (a b : String) : ℚ :=
  let setA := tokenSet a
  let setB := tokenSet b
  if setA.card = 0 ∧ setB.card = 0 then 1
  else
    let intersection := (setB.filter (fun t => t ∈ setA)).card
    let union := setA.card + (setB.filter (fun t => t ∉ setA)).card
    if union = 0 then 0 else (intersection : ℚ) / (union : ℚ)

/-- `diff.Diff`: per-metric deltas (current − baseline) plus the token
Jaccard between the baseline's golden text and the first run's output (the
text delta keeps Go's zero value when there are no runs). -/
def Diff (current : Eval.CaseResult) (base : Baseline.Baseline) : DiffResult :=
  let delta : MetricDelta :=
    ⟨current.aggregates.passRate - base.aggregates.passRate,
     ((current.aggregates.latencyP95MS - base.aggregates.latencyP95MS : Int) : ℚ),
     current.aggregates.refusalRate - base.aggregates.refusalRate,
     current.aggregates.jsonValidRate - base.aggregates.jsonValidRate⟩
  let textDelta : TextDelta :=
    match current.runs with
    | [] => ⟨0⟩
    | r0 :: _ => ⟨tokenJaccard base.goldenText r0.outputText⟩
  ⟨current.caseID, delta, textDelta, ⟨[]⟩⟩

/-! ## Cases (internal/cases/case.go, the fields the policy engine reads) -/

namespace Cases

/-- A test case (`cases.Case`); the policy engine only reads `id` and
`tags`, the other fields are carried for completeness of the shape the
engine is handed. -/
structure Case where
  id : String
  tags : List String
deriving DecidableEq, Repr

end Cases

/-! ## Policy configuration (internal/config/schema.go, validation.go) -/

namespace Config

/-- Scope filters of a policy (`config.PolicyScope`). -/
structure PolicyScope where
  tags : List String
  ids : List String
  providers : List String
deriving DecidableEq, Repr

/-- Latency thresholds (`config.LatencyThreshold`). -/
structure LatencyThreshold where
  max : Option Int
  maxDelta : Option Int
deriving DecidableEq, Repr

/-- A policy's check configuration (`config.PolicyCheck`); the Go field
`Type` is named `ctype` because `type` is reserved in Lean. -/
structure PolicyCheck where
  ctype : String
  extractor : String
  minPassRate : Option ℚ
  schema : String
  phrases : List String
  maxIncidents : Option Int
  detector : String
  metric : String
  maxP95 : Option ℚ
  max : Option ℚ
  maxDelta : Option ℚ
  latencyP95 : Option LatencyThreshold
deriving DecidableEq, Repr

/-- A configured policy (`config.Policy`). -/
structure Policy where
  id : String
  description : String
  severity : String
  scope : Option PolicyScope
  check : PolicyCheck
deriving DecidableEq, Repr

/-- Models Go's `%q` for the plain identifiers it is applied to here. -/
def quoteGo (s : String) : String := "\"" ++ s ++ "\""

/-- `config.validateJSONValid` (only sets a local default; never fails). -/
def validateJSONValid (_ : PolicyCheck) : Except String Unit := .ok ()

/-- `config.validateJSONSchema`. -/
def validateJSONSchema (check : PolicyCheck) : Except String Unit :=
  if check.schema = "" then .error "schema is required" else .ok ()

/-- `config.validateTextContains` (also used for `text_not_contains`). -/
def validateTextContains (check : PolicyCheck) : Except String Unit :=
  if check.phrases = [] then .error "phrases is required" else .ok ()

/-- `config.validatePIILeak`. -/
def validatePIILeak (check : PolicyCheck) : Except String Unit :=
  if check.detector = "" then .error "detector is required" else .ok ()

/-- `config.validateVariance`. -/
def validateVariance (check : PolicyCheck) : Except String Unit :=
  if check.metric = "" then .error "metric is required" else .ok ()

/-- `config.validateRefusalRate`. -/
def validateRefusalRate (check : PolicyCheck) : Except String Unit :=
  if check.max = none ∧ check.maxDelta = none then
    .error "max or max_delta is required"
  else .ok ()

/-- `config.validateLatency`. -/
def validateLatency (check : PolicyCheck) : Except String Unit :=
  if check.latencyP95 = none then .error "p95_ms is required" else .ok ()

/-- `config.validateAssertions`. -/
def validateAssertions (check : PolicyCheck) : Except String Unit :=
  if check.minPassRate = none then .error "min_pass_rate is required" else .ok ()

/-- `config.policyCheckValidators`: the check-type → validator map of
internal/config/validation.go (note that it registers `assertions`). -/
def policyCheckValidators (t : String) :
    Option (PolicyCheck → Except String Unit) :=
  match t with
  | "json_valid" => some validateJSONValid
  | "json_schema" => some validateJSONSchema
  | "text_contains" => some validateTextContains
  | "text_not_contains" => some validateTextContains
  | "pii_leak" => some validatePIILeak
  | "variance" => some validateVariance
  | "refusal_rate" => some validateRefusalRate
  | "latency" => some validateLatency
  | "assertions" => some validateAssertions
  | _ => none

/-- `config.validatePolicyCheck` (internal/config/validation.go). -/
def validatePolicyCheck (check : PolicyCheck) : Except String Unit :=
  if check.ctype = "" then .error "type is required"
  else
    match policyCheckValidators check.ctype with
    | none => .error ("unsupported check type " ++ quoteGo check.ctype)
    | some v => v check

end Config

/-! ## Policy engine (internal/policy/policy.go) -/

namespace Policy

/-- A policy violation (`policy.Violation`). -/
structure Violation where
  policyID : String
  severity : String
  message : String
  evidence : String
deriving DecidableEq, Repr

/-- `policy.violation`: build a violation, defaulting an empty severity to
"error". -/
def violation (policy : Config.Policy) (msg : String) : Violation :=
  let severity := if policy.severity = "" then "error" else policy.severity
  ⟨policy.id, severity, msg, ""⟩

/-- `policy.containsAny`: Go builds a set from the haystack and checks each
needle; membership is equivalent. -/
def containsAny (haystack needles : List String) : Bool :=
  needles.any (fun needle => haystack.contains needle)

/-- `policy.matchesScope`. -/
def matchesScope (scope : Option Config.PolicyScope) (c : Cases.Case)
    (res : Eval.CaseResult) : Bool :=
  match scope with
  | none => true
  | some sc =>
    if sc.tags ≠ [] ∧ ¬ containsAny c.tags sc.tags then false
    else if sc.ids ≠ [] ∧ ¬ containsAny [c.id] sc.ids then false
    else if sc.providers ≠ [] ∧ ¬ containsAny [res.provider] sc.providers then false
    else true

/-- Go `strings.Contains`. -/
def strContains (s sub : String) : Bool := decide (sub.data.IsInfix s.data)

/-- `policy.textContainsRate`: fraction of runs containing every phrase. -/
def textContainsRate (runs : List Eval.RunResult) (phrases : List String) : ℚ :=
  if runs = [] then 0
  else
    ((runs.filter (fun run => phrases.all (fun p => strContains run.outputText p))).length : ℚ)
      / (runs.length : ℚ)

/-- `policy.textNotContainsIncidents`: number of runs containing at least
one forbidden phrase. -/
def textNotContainsIncidents (runs : List Eval.RunResult)
    (phrases : List String) : Nat :=
  (runs.filter (fun run => phrases.any (fun p => strContains run.outputText p))).length

/-- `policy.piiPatterns`: `pii_strict` gets email + phone + ssn, every other
detector name falls to the default email + phone pair. -/
def piiPatterns (detector : String) : List Re :=
  if detector = "pii_strict" then [emailRe, phoneRe, ssnRe]
  else [emailRe, phoneRe]

/-- `policy.piiIncidents`: number of runs whose output matches at least one
of the detector's patterns. -/
def piiIncidents (runs : List Eval.RunResult) (detector : String) : Nat :=
  let patterns := piiPatterns detector
  (runs.filter (fun run => patterns.any (fun re => reMatchString re run.outputText))).length

/-- Modelled: Go's `%.2f` (two-decimal fixed point; ties half away from
zero).  No claim depends on the exact rendering of these message numbers. -/
def fmtQ2 (q : ℚ) : String :=
  let n := (⌊|q| * 100 + 1 / 2⌋).toNat
  let fr := n % 100
  (if q < 0 then "-" else "") ++ toString (n / 100) ++ "." ++
    (if fr < 10 then "0" else "") ++ toString fr

/-- Modelled: Go's `%.0f`. -/
def fmtQ0 (q : ℚ) : String :=
  (if q < 0 then "-" else "") ++ toString (⌊|q| + 1 / 2⌋).toNat

/-- `policy.evaluatePolicy`: the check-type switch; returns at most one
violation.  Note it has no `assertions` case, so that type reaches the
default branch. -/
def evaluatePolicy (policy : Config.Policy) (res : Eval.CaseResult)
    (d : DiffResult) : Option Violation :=
  let check := policy.check
  if check.ctype = "json_valid" then
    let threshold := match check.minPassRate with | some v => v | none => 1
    if res.aggregates.jsonValidRate < threshold then
      some (violation policy ("json valid rate " ++ fmtQ2 res.aggregates.jsonValidRate
        ++ " below " ++ fmtQ2 threshold))
    else none
  else if check.ctype = "text_contains" then
    let threshold := match check.minPassRate with | some v => v | none => 1
    let passRate := textContainsRate res.runs check.phrases
    if passRate < threshold then
      some (violation policy ("text contains rate " ++ fmtQ2 passRate
        ++ " below " ++ fmtQ2 threshold))
    else none
  else if check.ctype = "text_not_contains" then
    let maxIncidents := match check.maxIncidents with | some v => v | none => 0
    let incidents := textNotContainsIncidents res.runs check.phrases
    if (incidents : Int) > maxIncidents then
      some (violation policy ("text not_contains incidents " ++ toString incidents
        ++ " above " ++ toString maxIncidents))
    else none
  else if check.ctype = "pii_leak" then
    let maxIncidents := match check.maxIncidents with | some v => v | none => 0
    let incidents := piiIncidents res.runs check.detector
    if (incidents : Int) > maxIncidents then
      some (violation policy ("pii incidents " ++ toString incidents
        ++ " above " ++ toString maxIncidents))
    else none
  else if check.ctype = "variance" then
    match check.maxP95 with
    | none => some (violation policy "max_p95 is required")
    | some maxP95 =>
      let variance := 1 - d.textDelta.tokenJaccard
      if variance > maxP95 then
        some (violation policy ("variance " ++ fmtQ2 variance
          ++ " above " ++ fmtQ2 maxP95))
      else none
  else if check.ctype = "refusal_rate" then
    if (match check.max with
        | some m => decide (res.aggregates.refusalRate > m)
        | none => false) then
      some (violation policy ("refusal rate " ++ fmtQ2 res.aggregates.refusalRate
        ++ " above " ++ fmtQ2 ((check.max).getD 0)))
    else
      match check.maxDelta with
      | some md =>
        if d.metricDelta.refusalRate > md then
          some (violation policy ("refusal delta " ++ fmtQ2 d.metricDelta.refusalRate
            ++ " above " ++ fmtQ2 md))
        else none
      | none => none
  else if check.ctype = "latency" then
    match check.latencyP95 with
    | none => some (violation policy "p95_ms is required")
    | some lt =>
      if (match lt.max with
          | some m => decide (res.aggregates.latencyP95MS > m)
          | none => false) then
        some (violation policy ("latency p95 " ++ toString res.aggregates.latencyP95MS
          ++ " above " ++ toString ((lt.max).getD 0)))
      else
        match lt.maxDelta with
        | some md =>
          if d.metricDelta.latencyP95MS > (md : ℚ) then
            some (violation policy ("latency delta " ++ fmtQ0 d.metricDelta.latencyP95MS
              ++ " above " ++ toString md))
          else none
        | none => none
  else if check.ctype = "json_schema" then
    some (violation policy "json schema checks not implemented")
  else
    some (violation policy ("unsupported check " ++ Config.quoteGo check.ctype))

/-- `policy.Evaluate`: run every in-scope policy, collecting at most one
violation per policy, in order. -/
def Evaluate (policies : List Config.Policy) (c : Cases.Case)
    (res : Eval.CaseResult) (d : DiffResult) : List Violation :=
  policies.foldl
    (fun violations policy =>
      if matchesScope policy.scope c res then
        match evaluatePolicy policy res d with
        | some v => violations ++ [v]
        | none => violations
      else violations)
    []

end Policy

/-! ## Trace store (internal/trace/model.go, LocalStore) -/

/-- Filter for listing traces (`trace.TraceFilter`); `untilTime` is the Go
field `Until` (`until` reads poorly as a Lean field name). -/
structure TraceFilter where
  ids : List String
  since : Option Nat
  untilTime : Option Nat
  limit : Int
deriving DecidableEq, Repr

/-- The empty filter (Go zero value). -/
def emptyFilter : TraceFilter := ⟨[], none, none, 0⟩

/-- Nanoseconds per UTC calendar day. -/
def nsPerDay : Nat := 86400000000000

/-- Day partition key of a timestamp.  Go formats the UTC time as
`2006-01-02` and walks the day directories in lexical order; fixed-width
dates sort lexically exactly as the day numbers sort numerically, so the
embedding keys partitions by day number. -/
def dayKey (ts : Nat) : Nat := ts / nsPerDay

/-- One stored line of a day's `traces.jsonl`: `some t` when the line
unmarshals to the trace `t` (Go's marshal/unmarshal round-trips the record),
`none` for a line that fails to parse. -/
def TraceLine : Type := Option Trace

/-- The on-disk state of a `trace.LocalStore`: day partitions in walk
(lexical = chronological) order, each a list of lines in file order. -/
structure LocalStore where
  partitions : List (Nat × List (Option Trace))

/-- The store with no partitions. -/
def emptyStore : LocalStore := ⟨[]⟩

/-- Append a line to its day partition, keeping partitions ordered by key
(creating the day's file on first use, as `Append` does via `MkdirAll` and
`O_CREATE|O_APPEND`). -/
def putLine (k : Nat) (ln : Option Trace) :
    List (Nat × List (Option Trace)) → List (Nat × List (Option Trace))
  | [] => [(k, [ln])]
  | (k', lns) :: rest =>
    if k = k' then (k', lns ++ [ln]) :: rest
    else if k < k' then (k, [ln]) :: (k', lns) :: rest
    else (k', lns) :: putLine k ln rest

/-- `(*LocalStore).Append`: default a zero timestamp to the current time,
marshal the trace, and append the line to the day's file.  `now` stands for
`time.Now().UTC()`. -/
def LocalStore.Append (s : LocalStore) (now : Nat) (t : Trace) : LocalStore :=
  let t := if t.timestamp = 0 then { t with timestamp := now } else t
  ⟨putLine (dayKey t.timestamp) (some t) s.partitions⟩

/-- Scanner loop of `List` over one file's lines: a line that fails to
unmarshal is a hard error; matching traces accumulate; when a positive limit
is reached the scan of this file stops (Go's `return nil` inside the scanner
loop ends only the current file's walk callback). -/
def scanFile (f : TraceFilter) : List Trace → List (Option Trace) →
    Except String (List Trace)
  | acc, [] => .ok acc
  | acc, ln :: rest =>
    match ln with
    | none => .error "parse trace"
    | some t =>
      if f.ids ≠ [] ∧ ¬ f.ids.contains t.traceID then scanFile f acc rest
      else if (match f.since with
          | some since => decide (t.timestamp < since) | none => false) then
        scanFile f acc rest
      else if (match f.untilTime with
          | some u => decide (t.timestamp > u) | none => false) then
        scanFile f acc rest
      else
        let acc := acc ++ [t]
        if f.limit > 0 ∧ (acc.length : Int) ≥ f.limit then .ok acc
        else scanFile f acc rest

/-- Walk all partitions in order, scanning each file. -/
def scanAll (f : TraceFilter) : List Trace → List (Nat × List (Option Trace)) →
    Except String (List Trace)
  | acc, [] => .ok acc
  | acc, (_, lns) :: rest =>
    match scanFile f acc lns with
    | .error e => .error e
    | .ok acc => scanAll f acc rest

/-- Ordering used to sort the listed traces.  Go sorts with `sort.Slice`
and the strict `Before` comparator (an unstable sort, so the order of equal
timestamps is unspecified); any correct ascending sort agrees with Go
whenever timestamps are distinct. -/
def tsLE (a b : Trace) : Prop := a.timestamp ≤ b.timestamp

instance : DecidableRel tsLE := fun a b => Nat.decLe a.timestamp b.timestamp

instance : IsTotal Trace tsLE := ⟨fun a b => Nat.le_total a.timestamp b.timestamp⟩

instance : IsTrans Trace tsLE := ⟨fun _ _ _ hab hbc => Nat.le_trans hab hbc⟩

/-- Sort traces ascending by timestamp. -/
def sortByTs (ts : List Trace) : List Trace := ts.insertionSort tsLE

/-- `(*LocalStore).List`: scan every partition, fail on the first malformed
line, filter, and return the survivors sorted ascending by timestamp. -/
def LocalStore.List (s : LocalStore) (f : TraceFilter) :
    Except String (List Trace) :=
  match scanAll f [] s.partitions with
  | .error e => .error e
  | .ok traces => .ok (sortByTs traces)

/-- `(*LocalStore).Read`: `List` with a single-id filter and limit 1,
failing distinctly when nothing matches. -/
def LocalStore.Read (s : LocalStore) (id : String) : Except String Trace :=
  match s.List ⟨[id], none, none, 1⟩ with
  | .error e => .error e
  | .ok [] => .error ("trace " ++ id ++ " not found")
  | .ok (t :: _) => .ok t

/-! ## Request/response extraction (internal/record/proxy.go, forward.go) -/

/-- JSON values, as decoded by `encoding/json` into `any` (numbers become
`float64`, objects keep their field list; a duplicated key keeps the last
occurrence, which `lookupJ` implements). -/
inductive Json where
  | null : Json
  | bool : Bool → Json
  | num : ℚ → Json
  | str : String → Json
  | arr : List Json → Json
  | obj : List (String × Json) → Json

/-- A raw HTTP body: the raw text, together with the result of
`json.Unmarshal` into `map[string]any` (`none` when the body is not a JSON
object). -/
structure Body where
  raw : String
  parsed : Option (List (String × Json))

/-- Look a key up in a decoded object (last occurrence wins, as
`encoding/json` keeps the last duplicate). -/
def lookupJ (fields : List (String × Json)) (k : String) : Option Json :=
  ((fields.filter (fun f => f.1 = k)).getLast?).map (fun f => f.2)

/-- Text of one content block: Go requires a map with a string `text`. -/
def blockText : Json → Option String
  | .obj fields =>
    match lookupJ fields "text" with
    | some (.str s) => some s
    | _ => none
  | _ => none

/-- `record.extractContentBlocks`: concatenate the `text` fields of the
map-shaped blocks. -/
def extractContentBlocks (blocks : List Json) : String :=
  (blocks.filterMap blockText).foldl (fun acc p => acc ++ p) ""

/-- `record.toStringSlice`: keep the string elements. -/
def toStringSlice (values : List Json) : List String :=
  values.filterMap (fun v => match v with | .str s => some s | _ => none)

/-- Go `int(float64)` truncates toward zero. -/
def qTruncInt (q : ℚ) : Int := if 0 ≤ q then ⌊q⌋ else ⌈q⌉

/-- Result triple of `record.parseRequest`. -/
structure ParsedReq where
  messages : List Message
  params : Option SamplingParams
  model : String
deriving Repr

/-- The messages-array extraction inside `parseRequest`: for each map-shaped
item take its `role` and its `content` (a plain string, or the concatenated
text of a block list), skipping items with an empty role or content. -/
def msgsFromJson (payload : List (String × Json)) : List Message :=
  match lookupJ payload "messages" with
  | some (.arr rawMessages) =>
    rawMessages.foldl
      (fun acc item =>
        match item with
        | .obj msgMap =>
          let role := match lookupJ msgMap "role" with
            | some (.str r) => r | _ => ""
          let content := match lookupJ msgMap "content" with
            | some (.str v) => v
            | some (.arr v) => extractContentBlocks v
            | _ => ""
          if role ≠ "" ∧ content ≠ "" then acc ++ [⟨role, content⟩] else acc
        | _ => acc)
      []
  | _ => []

/-- `record.parseRequest`: messages (or the `prompt` fallback), sampling
parameters (collapsed to `none` when every field is unset), and model. -/
def parseRequest (body : Body) : ParsedReq :=
  match body.parsed with
  | none => ⟨[], none, ""⟩
  | some payload =>
    let messages := msgsFromJson payload
    let messages :=
      if messages = [] then
        match lookupJ payload "prompt" with
        | some (.str prompt) => [⟨"user", prompt⟩]
        | _ => []
      else messages
    let temperature := match lookupJ payload "temperature" with
      | some (.num v) => some v | _ => none
    let topP := match lookupJ payload "top_p" with
      | some (.num v) => some v | _ => none
    let maxTok := match lookupJ payload "max_output_tokens" with
      | some (.num v) => some (qTruncInt v) | _ => none
    let maxTok := match lookupJ payload "max_tokens" with
      | some (.num v) => some (qTruncInt v) | _ => maxTok
    let stop := match lookupJ payload "stop" with
      | some (.arr xs) => toStringSlice xs | _ => []
    let modelName := match lookupJ payload "model" with
      | some (.str m) => m | _ => ""
    let params : Option SamplingParams :=
      if temperature = none ∧ topP = none ∧ maxTok = none ∧ stop = [] then none
      else some ⟨temperature, topP, maxTok, stop⟩
    ⟨messages, params, modelName⟩

/-- `record.parseResponse`: assistant text from the provider shapes, in the
source's priority order (choices[0].message.content, choices[0].text, then a
top-level `content` string or block list), defaulting to empty. -/
def parseResponse (body : Body) : String :=
  match body.parsed with
  | none => ""
  | some payload =>
    let fromChoices : Option String :=
      match lookupJ payload "choices" with
      | some (.arr (choice0 :: _)) =>
        match choice0 with
        | .obj choice =>
          (match lookupJ choice "message" with
            | some (.obj message) =>
              match lookupJ message "content" with
              | some (.str content) => some content
              | _ => none
            | _ => none).orElse
            (fun _ =>
              match lookupJ choice "text" with
              | some (.str content) => some content
              | _ => none)
        | _ => none
      | _ => none
    match fromChoices with
    | some s => s
    | none =>
      match lookupJ payload "content" with
      | some (.str content) => content
      | some (.arr blocks) => extractContentBlocks blocks
      | _ => ""

/-- `(*ProxyRecorder).buildTrace`: build the trace from the parsed request
and response; when parsing produced no messages and the raw body is
non-empty, fall back to a single user message holding the whole raw body.
`id` stands for `util.NewID()` and `now` for `time.Now().UTC()`. -/
def buildTrace (id : String) (now : Nat) (provider : String)
    (requestBody responseBody : Body) (latencyMS : Int) : Trace :=
  let parsed := parseRequest requestBody
  let assistantText := parseResponse responseBody
  let record : Trace :=
    { traceID := id, timestamp := now, provider, model := parsed.model,
      environment := "", gitSHA := "",
      request := ⟨parsed.messages, parsed.params⟩,
      response := ⟨assistantText, [], responseBody.raw⟩,
      metrics := ⟨latencyMS, 0, 0⟩, redactionApplied := [] }
  if parsed.messages = [] ∧ requestBody.raw ≠ "" then
    { record with request := { record.request with
        messages := [⟨"user", requestBody.raw⟩] } }
  else record

/-- Per-request capture record of the forward proxy
(`record.captureContext`); only the fields `buildTraceFromCapture` reads are
carried. -/
structure CaptureContext where
  traceID : String
  startTime : Nat
  provider : String
  host : String
  method : String
  requestBody : Body
  responseBody : Body

/-- `(*ForwardProxyRecorder).buildTraceFromCapture`: build the trace
directly from `parseRequest`'s output — unlike `buildTrace` it applies no
raw-body fallback when no messages were parsed. -/
def buildTraceFromCapture (c : CaptureContext) (durationMS : Int) : Trace :=
  let parsed := parseRequest c.requestBody
  let assistantText := parseResponse c.responseBody
  { traceID := c.traceID, timestamp := c.startTime, provider := c.provider,
    model := parsed.model, environment := "", gitSHA := "",
    request := ⟨parsed.messages, parsed.params⟩,
    response := ⟨assistantText, [], c.responseBody.raw⟩,
    metrics := ⟨durationMS, 0, 0⟩, redactionApplied := [] }

/-! ## Spec-side definitions for the diff refinement claim -/

/-- Definition following the spec's words (for the refinement part of the
diff claims): the set of lowercased whitespace-separated tokens of a
text. -/
def specTokens (s : String) : Finset String := (strFields (lowerStr s)).toFinset

/-- Definition following the spec's words: token-level Jaccard similarity
of two token sets, where the similarity of two empty sets is 1, not 0. -/
def jaccardSpec (A B : Finset String) : ℚ :=
  if A = ∅ ∧ B = ∅ then 1 else ((A ∩ B).card : ℚ) / ((A ∪ B).card : ℚ)

/-- All lines of a store's partitions, in walk order. -/
def linesOf (parts : List (Nat × List (Option Trace))) : List (Option Trace) :=
  (parts.map (fun p => p.2)).flatten

/-! ## Concrete fixtures used by the claim theorems and witnesses -/

/-- Aggregates of a fully passing case. -/
def aggOK : Eval.Aggregates := ⟨1, 5, 0, 0⟩

/-- A passing run. -/
def runOK : Eval.RunResult := ⟨1, true, "hello world", "", ⟨5, false, false⟩, ""⟩

/-- A case result whose single run passes (pass rate 1). -/
def resOK : Eval.CaseResult := ⟨"case-1", "mock", "m", [runOK], aggOK⟩

/-- A no-change diff. -/
def dZero : DiffResult := ⟨"case-1", ⟨0, 0, 0, 0⟩, ⟨1⟩, ⟨[]⟩⟩

/-- The matching case. -/
def caseOK : Cases.Case := ⟨"case-1", []⟩

/-- Check `{type: assertions, min_pass_rate: 1.0}`. -/
def assertionsCheck : Config.PolicyCheck :=
  ⟨"assertions", "", some 1, "", [], none, "", "", none, none, none, none⟩

/-- Policy with the assertions check and default (empty) severity. -/
def assertionsPolicy : Config.Policy := ⟨"assert-pass", "", "", none, assertionsCheck⟩

/-- Policy with a `json_schema` check and empty severity. -/
def schemaPolicy : Config.Policy :=
  ⟨"schema-pol", "", "", none, ⟨"json_schema", "", none, "s", [], none, "", "", none, none, none, none⟩⟩

/-- Redactor compiled from the `secrets` preset. -/
def secretsRedactor : RegexRedactor := NewRedactor (PresetPatterns ["secrets"])

/-- A trace with one user message and no response text. -/
def mkTrace (id : String) (ts : Nat) (content : String) : Trace :=
  ⟨id, ts, "p", "m", "", "", ⟨[⟨"user", content⟩], none⟩, ⟨"", [], ""⟩, ⟨0, 0, 0⟩, []⟩

/-- A trace mentioning a token, to be scrubbed by the secrets preset. -/
def tokenTrace : Trace := mkTrace "t" 1 "my token: abc"

/-- The once-redacted secrets trace. -/
def tokenOnce : Trace := (secretsRedactor.Apply tokenTrace).1

/-- Redactor compiled from the `pii_basic` preset. -/
def basicRedactor : RegexRedactor := NewRedactor (PresetPatterns ["pii_basic"])

/-- A trace containing an email address. -/
def emailTrace : Trace := mkTrace "t" 1 "contact a@b.cde now"

/-- A case result with no runs. -/
def resEmptyRuns : Eval.CaseResult := ⟨"case-1", "mock", "m", [], aggOK⟩

/-- Sampling parameters with temperature and top-p set. -/
def spOK : SamplingParams := ⟨some (1 / 5), some 1, none, []⟩

/-- A request body that is not a JSON object. -/
def helloBody : Body := ⟨"hello", none⟩

/-- An empty body. -/
def emptyBody : Body := ⟨"", none⟩

/-- A forward-proxy capture of the non-JSON request body. -/
def helloCtx : CaptureContext := ⟨"id", 1, "p", "api.openai.com", "POST", helloBody, emptyBody⟩

/-- A JSON body whose only recognized field is `prompt`. -/
def promptBody : Body := ⟨"x", some [("prompt", Json.str "hi")]⟩

/-- A bare trace for the store claims. -/
def storeTrace (id : String) (ts : Nat) : Trace :=
  ⟨id, ts, "p", "m", "", "", ⟨[], none⟩, ⟨"", [], ""⟩, ⟨0, 0, 0⟩, []⟩

/-- Store trace on day 2. -/
def c7TraceA : Trace := storeTrace "a" (2 * nsPerDay + 5)

/-- Store trace on day 0. -/
def c7TraceB : Trace := storeTrace "b" 7

/-- A store whose single file holds one good line and then one malformed
line. -/
def c8Store : LocalStore := ⟨[(0, [some (storeTrace "t1" 5), none])]⟩

/-! ## Lemmas about the diff engine -/

theorem mem_foldl_insert (l : List String) (init : Finset String) (x : String) :
    x ∈ l.foldl (fun set token => insert token set) init ↔ x ∈ init ∨ x ∈ l := by
  induction l generalizing init with
  | nil => simp
  | cons a t ih =>
    simp only [List.foldl_cons, ih, Finset.mem_insert, List.mem_cons]
    tauto

theorem tokenSet_eq_specTokens (s : String) : tokenSet s = specTokens s := by
  ext x
  simp [tokenSet, specTokens, mem_foldl_insert]

theorem tokenJaccard_eq_spec (a b : String) :
    tokenJaccard a b = jaccardSpec (specTokens a) (specTokens b) := by
  unfold tokenJaccard jaccardSpec
  rw [tokenSet_eq_specTokens a, tokenSet_eq_specTokens b]
  by_cases h : specTokens a = ∅ ∧ specTokens b = ∅
  · simp [h.1, h.2]
  · have hcard : ¬ ((specTokens a).card = 0 ∧ (specTokens b).card = 0) := by
      simpa [Finset.card_eq_zero] using h
    rw [if_neg hcard, if_neg h]
    have hinter : ((specTokens b).filter (fun t => t ∈ specTokens a)).card =
        ((specTokens a) ∩ (specTokens b)).card := by
      rw [Finset.filter_mem_eq_inter, Finset.inter_comm]
    have hunion : (specTokens a).card +
        ((specTokens b).filter (fun t => t ∉ specTokens a)).card =
        ((specTokens a) ∪ (specTokens b)).card := by
      rw [← Finset.sdiff_eq_filter, Nat.add_comm, Finset.card_sdiff_add_card,
        Finset.union_comm]
    rw [hinter, hunion]
    have hne : ((specTokens a) ∪ (specTokens b)).card ≠ 0 := by
      simp only [ne_eq, Finset.card_eq_zero, Finset.union_eq_empty]
      exact h
    rw [if_neg hne]

theorem tokenJaccard_self (s : String) : tokenJaccard s s = 1 := by
  rw [tokenJaccard_eq_spec]
  unfold jaccardSpec
  by_cases h : specTokens s = ∅
  · simp [h]
  · rw [if_neg (by simp [h]), Finset.inter_self, Finset.union_self, div_self]
    simpa [Finset.card_eq_zero] using h

/-- C3 counterexample: for a case result with no runs, diffing against the
baseline built from that very result leaves the token Jaccard at its zero
value, not 1. -/
theorem c3_counterexample :
    (Diff resEmptyRuns (Baseline.FromResult resEmptyRuns "k" "h")).textDelta.tokenJaccard = 0 ∧
    (Diff resEmptyRuns (Baseline.FromResult resEmptyRuns "k" "h")).textDelta.tokenJaccard ≠ 1 := by
  constructor
  · rfl
  · intro hc
    have : (0 : ℚ) = 1 := by
      calc (0 : ℚ) = (Diff resEmptyRuns (Baseline.FromResult resEmptyRuns "k" "h")).textDelta.tokenJaccard := rfl
        _ = 1 := hc
    norm_num at this

/-- C3 (amended: the case result has at least one run): diffing a result
against `FromResult` of that same result yields all-zero metric deltas and
token Jaccard 1. -/
theorem c3_diff_identity (r : Eval.CaseResult) (key hash : String)
    (h : r.runs ≠ []) :
    (Diff r (Baseline.FromResult r key hash)).metricDelta = ⟨0, 0, 0, 0⟩ ∧
    (Diff r (Baseline.FromResult r key hash)).textDelta.tokenJaccard = 1 := by
  obtain ⟨r0, rest, hr⟩ : ∃ r0 rest, r.runs = r0 :: rest := by
    cases hrr : r.runs with
    | nil => exact absurd hrr h
    | cons r0 rest => exact ⟨r0, rest, rfl⟩
  constructor
  · simp [Diff, Baseline.FromResult, MetricDelta.mk.injEq]
    cases hrr : r.runs <;> simp
  · simp only [Diff, Baseline.FromResult, hr]
    exact tokenJaccard_self _

/-- C3 witness. -/
theorem c3_witness :
    (Diff resOK (Baseline.FromResult resOK "k" "h")).metricDelta = ⟨0, 0, 0, 0⟩ ∧
    (Diff resOK (Baseline.FromResult resOK "k" "h")).textDelta.tokenJaccard = 1 :=
  c3_diff_identity resOK "k" "h" (by decide)

/-- C4: `Diff` returns, for each of the four metrics, the signed delta
current − baseline, and (when the current result has a first run) the token
Jaccard between the baseline's golden text and that first run's output,
which agrees with the spec's set definition over lowercased
whitespace-separated tokens; the similarity of two texts that both tokenize
to the empty set is 1, not 0. -/
theorem c4_diff_semantics (current : Eval.CaseResult) (base : Baseline.Baseline)
    (r0 : Eval.RunResult) (rest : List Eval.RunResult)
    (h : current.runs = r0 :: rest) :
    (Diff current base).metricDelta.passRate =
      current.aggregates.passRate - base.aggregates.passRate ∧
    (Diff current base).metricDelta.latencyP95MS =
      ((current.aggregates.latencyP95MS - base.aggregates.latencyP95MS : Int) : ℚ) ∧
    (Diff current base).metricDelta.refusalRate =
      current.aggregates.refusalRate - base.aggregates.refusalRate ∧
    (Diff current base).metricDelta.jsonValidRate =
      current.aggregates.jsonValidRate - base.aggregates.jsonValidRate ∧
    (Diff current base).textDelta.tokenJaccard =
      jaccardSpec (specTokens base.goldenText) (specTokens r0.outputText) ∧
    (specTokens base.goldenText = ∅ → specTokens r0.outputText = ∅ →
      (Diff current base).textDelta.tokenJaccard = 1) := by
  refine ⟨rfl, rfl, rfl, rfl, ?_, ?_⟩
  · simp only [Diff, h]
    exact tokenJaccard_eq_spec _ _
  · intro ha hb
    simp only [Diff, h]
    rw [tokenJaccard_eq_spec, jaccardSpec, if_pos ⟨ha, hb⟩]

/-- C4 witness. -/
theorem c4_witness :
    (Diff resOK (Baseline.FromResult resOK "k" "h")).metricDelta.passRate =
      resOK.aggregates.passRate - (Baseline.FromResult resOK "k" "h").aggregates.passRate ∧
    (Diff resOK (Baseline.FromResult resOK "k" "h")).textDelta.tokenJaccard =
      jaccardSpec (specTokens (Baseline.FromResult resOK "k" "h").goldenText)
        (specTokens runOK.outputText) := by
  have h := c4_diff_semantics resOK (Baseline.FromResult resOK "k" "h") runOK [] rfl
  exact ⟨h.1, h.2.2.2.2.1⟩

/-! ## Baseline key -/

/-- C5: two `Key` calls on structurally identical inputs (same provider and
model strings, same sampling-parameter values including which optional
fields are set, same system prompt) return the identical key string and
identical raw hash; and the key has the shape
provider-slugifiedModel-hashPrefix with the raw hash as its last
component. -/
theorem c5_key_deterministic (p1 m1 : String) (sp1 : Option SamplingParams)
    (s1 : String) (p2 m2 : String) (sp2 : Option SamplingParams) (s2 : String)
    (hp : p1 = p2) (hm : m1 = m2) (hsp : sp1 = sp2) (hs : s1 = s2) :
    Key p1 m1 sp1 s1 = Key p2 m2 sp2 s2 ∧
    (Key p1 m1 sp1 s1).1 =
      p1 ++ "-" ++ (if Slugify m1 = "" then "model" else Slugify m1) ++ "-" ++
        (Key p1 m1 sp1 s1).2 ∧
    (Key p1 m1 sp1 s1).2 = ShortHash (marshalPayload p1 m1 sp1 s1) := by
  subst hp hm hsp hs
  refine ⟨rfl, ?_, ?_⟩ <;> simp only [Key]

/-- C5 witness. -/
theorem c5_witness :
    Key "openai" "gpt-4o" (some spOK) "sys" = Key "openai" "gpt-4o" (some spOK) "sys" ∧
    (Key "openai" "gpt-4o" (some spOK) "sys").1 =
      "openai" ++ "-" ++ (if Slugify "gpt-4o" = "" then "model" else Slugify "gpt-4o") ++ "-" ++
        (Key "openai" "gpt-4o" (some spOK) "sys").2 ∧
    (Key "openai" "gpt-4o" (some spOK) "sys").2 =
      ShortHash (marshalPayload "openai" "gpt-4o" (some spOK) "sys") :=
  c5_key_deterministic "openai" "gpt-4o" (some spOK) "sys"
    "openai" "gpt-4o" (some spOK) "sys" rfl rfl rfl rfl

/-! ## Policy engine -/

/-- C1 (code bug): the config validator of internal/config/validation.go
accepts the check `{type: assertions, min_pass_rate: 1.0}`, yet the policy
engine's `evaluatePolicy` has no `assertions` case, so on a case result
whose pass rate is 1 the engine still emits the default-branch violation
"unsupported check" instead of passing. -/
theorem c1_assertions_unsupported :
    Config.validatePolicyCheck assertionsCheck = .ok () ∧
    resOK.aggregates.passRate = 1 ∧
    assertionsCheck.minPassRate = some 1 ∧
    Policy.Evaluate [assertionsPolicy] caseOK resOK dZero =
      [⟨"assert-pass", "error", "unsupported check \"assertions\"", ""⟩] :=
  ⟨rfl, rfl, rfl, by decide⟩

/-- C10: every detector name other than `pii_strict` (unknown or empty
included) silently falls back to the basic email + phone patterns, with no
error path; exactly `pii_strict` adds the SSN pattern. -/
theorem c10_pii_default (detector : String) (h : detector ≠ "pii_strict") :
    Policy.piiPatterns detector = [emailRe, phoneRe] ∧
    Policy.piiPatterns "pii_strict" = [emailRe, phoneRe, ssnRe] ∧
    (∀ runs : List Eval.RunResult,
      Policy.piiIncidents runs detector =
        (runs.filter (fun run =>
          [emailRe, phoneRe].any (fun re => reMatchString re run.outputText))).length) := by
  refine ⟨?_, rfl, ?_⟩
  · simp [Policy.piiPatterns, h]
  · intro runs
    simp [Policy.piiIncidents, Policy.piiPatterns, h]

/-- C10 witness. -/
theorem c10_witness :
    Policy.piiPatterns "unknown" = [emailRe, phoneRe] ∧
    Policy.piiPatterns "pii_strict" = [emailRe, phoneRe, ssnRe] :=
  ⟨(c10_pii_default "unknown" (by decide)).1, (c10_pii_default "unknown" (by decide)).2.1⟩

theorem evaluatePolicy_severity (p : Config.Policy) (res : Eval.CaseResult)
    (d : DiffResult) (v : Policy.Violation)
    (h : Policy.evaluatePolicy p res d = some v) :
    v.severity = if p.severity = "" then "error" else p.severity := by
  simp only [Policy.evaluatePolicy] at h
  repeat' split at h
  all_goals first
    | exact Option.noConfusion h
    | (injection h with h2; subst h2; rfl)

theorem mem_Evaluate (ps : List Config.Policy) (c : Cases.Case)
    (res : Eval.CaseResult) (d : DiffResult) (v : Policy.Violation) :
    ∀ acc : List Policy.Violation,
      v ∈ ps.foldl (fun violations policy =>
        if Policy.matchesScope policy.scope c res then
          match Policy.evaluatePolicy policy res d with
          | some v' => violations ++ [v']
          | none => violations
        else violations) acc →
      v ∈ acc ∨ ∃ p ∈ ps, Policy.evaluatePolicy p res d = some v := by
  induction ps with
  | nil =>
    intro acc h
    exact Or.inl h
  | cons p rest ih =>
    intro acc h
    simp only [List.foldl_cons] at h
    rcases ih _ h with hacc | ⟨q, hq, hv⟩
    · by_cases hs : Policy.matchesScope p.scope c res
      · rw [if_pos hs] at hacc
        cases he : Policy.evaluatePolicy p res d with
        | none =>
          rw [he] at hacc
          exact Or.inl hacc
        | some v2 =>
          rw [he] at hacc
          rcases List.mem_append.mp hacc with h1 | h2
          · exact Or.inl h1
          · have hvv : v = v2 := by simpa using h2
            exact Or.inr ⟨p, List.mem_cons_self p rest, by rw [he, hvv]⟩
      · rw [if_neg hs] at hacc
        exact Or.inl hacc
    · exact Or.inr ⟨q, List.mem_cons_of_mem p hq, hv⟩

/-- C9: every violation the engine emits for policies whose severity field
is empty carries severity "error" (the default is "error", not "warn" and
not the empty string). -/
theorem c9_severity_default (ps : List Config.Policy) (c : Cases.Case)
    (res : Eval.CaseResult) (d : DiffResult)
    (hsev : ∀ p ∈ ps, p.severity = "")
    (v : Policy.Violation) (hv : v ∈ Policy.Evaluate ps c res d) :
    v.severity = "error" := by
  simp only [Policy.Evaluate] at hv
  rcases mem_Evaluate ps c res d v [] hv with h | ⟨p, hp, he⟩
  · cases h
  · have hs := evaluatePolicy_severity p res d v he
    rw [hsev p hp] at hs
    simpa using hs

/-- C9 witness. -/
theorem c9_witness :
    (⟨"schema-pol", "error", "json schema checks not implemented", ""⟩ : Policy.Violation) ∈
      Policy.Evaluate [schemaPolicy] caseOK resOK dZero ∧
    Policy.Violation.severity
      ⟨"schema-pol", "error", "json schema checks not implemented", ""⟩ = "error" :=
  ⟨by decide,
    c9_severity_default [schemaPolicy] caseOK resOK dZero (by decide) _ (by decide)⟩

/-! ## Redaction -/

theorem applyPatterns_foldl_no_match (pats : List CompiledPattern) :
    ∀ (acc : String × List String),
      (∀ p ∈ pats, reMatchString p.regex acc.1 = false) →
      pats.foldl (fun acc pat =>
        if reMatchString pat.regex acc.1 then
          (reReplaceAll pat.regex acc.1 pat.replaceWith, acc.2 ++ [pat.name])
        else acc) acc = acc := by
  induction pats with
  | nil =>
    intro acc _
    rfl
  | cons p rest ih =>
    intro acc h
    have h0 : reMatchString p.regex acc.1 = false := h p (by simp)
    simp only [List.foldl_cons, h0, Bool.false_eq_true, if_false]
    exact ih acc (fun q hq => h q (List.mem_cons_of_mem p hq))

theorem applyPatterns_no_match (input : String) (pats : List CompiledPattern)
    (h : ∀ p ∈ pats, reMatchString p.regex input = false) :
    applyPatterns input pats = (input, []) := by
  unfold applyPatterns
  by_cases hi : input = ""
  · simp [hi]
  · rw [if_neg hi]
    exact applyPatterns_foldl_no_match pats (input, []) h

theorem redactMsgStep_no_match (pats : List CompiledPattern)
    (acc : List Message × List String) (m : Message)
    (hm : applyPatterns m.content pats = (m.content, [])) :
    redactMsgStep pats acc m = (acc.1 ++ [m], acc.2) := by
  simp only [redactMsgStep, hm]
  simp

theorem applyMsgs_no_match (pats : List CompiledPattern) (msgs : List Message) :
    ∀ (acc : List Message × List String),
      (∀ m ∈ msgs, applyPatterns m.content pats = (m.content, [])) →
      msgs.foldl (redactMsgStep pats) acc = (acc.1 ++ msgs, acc.2) := by
  induction msgs with
  | nil =>
    intro acc _
    simp
  | cons m rest ih =>
    intro acc h
    rw [List.foldl_cons, redactMsgStep_no_match pats acc m (h m (by simp)),
      ih (acc.1 ++ [m], acc.2) (fun q hq => h q (List.mem_cons_of_mem m hq))]
    simp

theorem Apply_no_match (r : RegexRedactor) (t : Trace)
    (hmsg : ∀ m ∈ t.request.messages, ∀ p ∈ r.patterns,
      reMatchString p.regex m.content = false)
    (hresp : ∀ p ∈ r.patterns,
      reMatchString p.regex t.response.assistantText = false) :
    r.Apply t = (t, []) := by
  have hmsgs : ∀ m ∈ t.request.messages,
      applyPatterns m.content r.patterns = (m.content, []) :=
    fun m hm => applyPatterns_no_match _ _ (hmsg m hm)
  have hrsp : applyPatterns t.response.assistantText r.patterns =
      (t.response.assistantText, []) :=
    applyPatterns_no_match _ _ hresp
  unfold RegexRedactor.Apply
  rw [applyMsgs_no_match r.patterns t.request.messages ([], []) hmsgs]
  by_cases he : t.response.assistantText = ""
  · simp [he, unique]
  · simp [he, hrsp, unique]

/-- C2 counterexample: with the `secrets` preset the replacement token
itself matches the secrets pattern (case-insensitively containing
"SECRET"), so a second application of the redactor to the already-redacted
trace changes the message again and reports the rule as fired. -/
theorem c2_counterexample :
    tokenOnce.request.messages.map Message.content = ["my [REDACTED_SECRET]"] ∧
    (secretsRedactor.Apply tokenOnce).2 = ["api_key"] ∧
    (secretsRedactor.Apply tokenOnce).1.request.messages.map Message.content =
      ["my [REDACTED_[REDACTED_SECRET]"] := by
  refine ⟨?_, ?_, ?_⟩ <;> rfl

/-- C2 (amended): a second application of the redactor leaves the trace
unchanged and reports no fired rules exactly in the case that no configured
pattern matches the once-redacted message contents or response text; the
unconditional claim is false because replacement tokens can re-match (see
the secrets counterexample). -/
theorem c2_second_apply (r : RegexRedactor) (t : Trace)
    (hmsg : ∀ m ∈ (r.Apply t).1.request.messages, ∀ p ∈ r.patterns,
      reMatchString p.regex m.content = false)
    (hresp : ∀ p ∈ r.patterns,
      reMatchString p.regex (r.Apply t).1.response.assistantText = false) :
    r.Apply (r.Apply t).1 = ((r.Apply t).1, []) :=
  Apply_no_match r (r.Apply t).1 hmsg hresp

/-- C2 witness: for the `pii_basic` preset on a trace holding one email
address, the once-redacted text matches no pattern any more, so the second
application is the identity and fires nothing. -/
theorem c2_witness :
    basicRedactor.Apply (basicRedactor.Apply emailTrace).1 =
      ((basicRedactor.Apply emailTrace).1, []) :=
  c2_second_apply basicRedactor emailTrace (by decide) (by decide)

/-! ## Request extraction and the raw-body fallback -/

/-- C6 counterexample: in forward-proxy mode (`buildTraceFromCapture`) a
request body that is not JSON (so neither the messages nor the prompt shape
is present) yields a trace with no request messages at all — the raw-body
fallback the claim asserts for both modes is applied only by `buildTrace`. -/
theorem c6_counterexample :
    helloBody.parsed = none ∧
    helloBody.raw = "hello" ∧
    (buildTraceFromCapture helloCtx 3).request.messages = [] ∧
    (buildTraceFromCapture helloCtx 3).request.messages ≠
      [⟨"user", helloCtx.requestBody.raw⟩] := by
  exact ⟨rfl, rfl, rfl, by decide⟩

/-- C6 (amended): `parseRequest` extracts the messages array (concatenating
the text blocks of list-shaped content) or falls back to a single user
message built from `prompt`; when neither shape is present it returns no
messages.  The whole-raw-body fallback exists only in the `ProxyRecorder`'s
`buildTrace`, which substitutes one user message holding the raw body when
parsing produced no messages and the body is non-empty; the forward proxy's
`buildTraceFromCapture` stores `parseRequest`'s messages unchanged, with no
fallback. -/
theorem c6_extraction (id : String) (now : Nat) (prov : String)
    (reqBody respBody : Body) (lat : Int) (c : CaptureContext) (dur : Int) :
    ((buildTrace id now prov reqBody respBody lat).request.messages =
      if (parseRequest reqBody).messages = [] ∧ reqBody.raw ≠ "" then
        [⟨"user", reqBody.raw⟩]
      else (parseRequest reqBody).messages) ∧
    ((buildTraceFromCapture c dur).request.messages =
      (parseRequest c.requestBody).messages) ∧
    (reqBody.parsed = none → (parseRequest reqBody).messages = []) ∧
    (∀ payload prompt, reqBody.parsed = some payload → msgsFromJson payload = [] →
      lookupJ payload "prompt" = some (.str prompt) →
      (parseRequest reqBody).messages = [⟨"user", prompt⟩]) := by
  refine ⟨?_, rfl, ?_, ?_⟩
  · by_cases h : (parseRequest reqBody).messages = [] ∧ reqBody.raw ≠ "" <;>
      simp [buildTrace, h]
  · intro h
    simp [parseRequest, h]
  · intro payload prompt hp hm hl
    simp [parseRequest, hp, hm, hl]

/-- C6 witness: the prompt fallback on a concrete body. -/
theorem c6_witness :
    (parseRequest promptBody).messages = [⟨"user", "hi"⟩] :=
  (c6_extraction "id" 1 "p" promptBody emptyBody 3 helloCtx 3).2.2.2
    [("prompt", Json.str "hi")] "hi" rfl rfl rfl

/-! ## Trace store: malformed lines -/

theorem scanFile_error (f : TraceFilter) (hl : f.limit ≤ 0) :
    ∀ (lns : List (Option Trace)) (acc : List Trace), none ∈ lns →
      ∃ e, scanFile f acc lns = .error e := by
  intro lns
  induction lns with
  | nil =>
    intro acc h
    cases h
  | cons ln rest ih =>
    intro acc h
    match ln with
    | none => exact ⟨"parse trace", rfl⟩
    | some t =>
      have hrest : none ∈ rest := by
        rcases List.mem_cons.mp h with h1 | h1
        · cases h1
        · exact h1
      simp only [scanFile]
      split
      · exact ih acc hrest
      · split
        · exact ih acc hrest
        · split
          · exact ih acc hrest
          · have hD : ¬ (f.limit > 0 ∧ ((acc ++ [t]).length : Int) ≥ f.limit) := by
              intro hc
              omega
            rw [if_neg hD]
            exact ih (acc ++ [t]) hrest

theorem scanAll_error (f : TraceFilter) (hl : f.limit ≤ 0) :
    ∀ (parts : List (Nat × List (Option Trace))) (acc : List Trace),
      (∃ part ∈ parts, none ∈ part.2) →
      ∃ e, scanAll f acc parts = .error e := by
  intro parts
  induction parts with
  | nil =>
    intro acc h
    rcases h with ⟨p, hp, _⟩
    cases hp
  | cons part rest ih =>
    intro acc h
    obtain ⟨k, lns⟩ := part
    simp only [scanAll]
    rcases h with ⟨p, hp, hnone⟩
    rcases List.mem_cons.mp hp with rfl | hmem
    · rcases scanFile_error f hl lns acc hnone with ⟨e, he⟩
      rw [he]
      exact ⟨e, rfl⟩
    · cases hres : scanFile f acc lns with
      | error e => exact ⟨e, rfl⟩
      | ok acc2 => exact ih acc2 ⟨p, hmem, hnone⟩

/-- C8 (amended): when the filter carries no positive result limit (in
particular the empty filter), any store state containing a line that does
not parse makes `List` return an error — the malformed line is not skipped.
With a positive limit (as `Read` uses), the scan of a file stops as soon as
the limit is reached, so a malformed line after that point is silently
skipped and a partial list is returned as success (see the
counterexample). -/
theorem c8_malformed_line_error (s : LocalStore) (f : TraceFilter)
    (hl : f.limit ≤ 0) (h : ∃ part ∈ s.partitions, none ∈ part.2) :
    ∃ e, s.List f = .error e := by
  rcases scanAll_error f hl s.partitions [] h with ⟨e, he⟩
  exact ⟨e, by simp only [LocalStore.List, he]⟩

/-- C8 counterexample: a store whose single file holds a good line for
trace `t1` followed by a malformed line; `Read "t1"` (which lists with
limit 1) succeeds and never reports the corruption. -/
theorem c8_counterexample :
    (∃ part ∈ c8Store.partitions, none ∈ part.2) ∧
    c8Store.Read "t1" = .ok (storeTrace "t1" 5) ∧
    c8Store.List ⟨["t1"], none, none, 1⟩ = .ok [storeTrace "t1" 5] := by
  refine ⟨⟨(0, [some (storeTrace "t1" 5), none]), by simp [c8Store], by simp⟩, rfl, rfl⟩

/-- C8 witness. -/
theorem c8_witness : ∃ e, c8Store.List emptyFilter = .error e :=
  c8_malformed_line_error c8Store emptyFilter (by decide)
    ⟨(0, [some (storeTrace "t1" 5), none]), by simp [c8Store], by simp⟩

/-! ## Trace store: round trip -/

theorem linesOf_nil : linesOf [] = [] := rfl

theorem linesOf_cons (k : Nat) (lns : List (Option Trace))
    (rest : List (Nat × List (Option Trace))) :
    linesOf ((k, lns) :: rest) = lns ++ linesOf rest := by
  simp [linesOf]

theorem putLine_perm (k : Nat) (x : Option Trace) :
    ∀ ps : List (Nat × List (Option Trace)),
      (linesOf (putLine k x ps)).Perm (x :: linesOf ps) := by
  intro ps
  induction ps with
  | nil => simp [putLine, linesOf]
  | cons hd rest ih =>
    obtain ⟨k2, lns⟩ := hd
    by_cases h1 : k = k2
    · simp only [putLine, if_pos h1, linesOf_cons]
      have : (lns ++ [x]) ++ linesOf rest = lns ++ (x :: linesOf rest) := by simp
      rw [this]
      exact List.perm_middle
    · by_cases h2 : k < k2
      · simp only [putLine, if_neg h1, if_pos h2, linesOf_cons]
        simp
      · simp only [putLine, if_neg h1, if_neg h2, linesOf_cons]
        exact ((ih).append_left lns).trans List.perm_middle

theorem Append_lines (s : LocalStore) (now : Nat) (t : Trace)
    (h : t.timestamp ≠ 0) :
    (linesOf (s.Append now t).partitions).Perm (some t :: linesOf s.partitions) := by
  simp only [LocalStore.Append, if_neg h]
  exact putLine_perm _ _ s.partitions

theorem foldl_append_lines (now : Nat) :
    ∀ (ts : List Trace) (s : LocalStore), (∀ t ∈ ts, t.timestamp ≠ 0) →
      (linesOf ((ts.foldl (fun s t => s.Append now t) s).partitions)).Perm
        (ts.map some ++ linesOf s.partitions) := by
  intro ts
  induction ts with
  | nil =>
    intro s _
    simp
  | cons t rest ih =>
    intro s h
    simp only [List.foldl_cons, List.map_cons]
    have h1 := ih (s.Append now t) (fun q hq => h q (List.mem_cons_of_mem t hq))
    have h2 : (linesOf (s.Append now t).partitions).Perm
        (some t :: linesOf s.partitions) :=
      Append_lines s now t (h t (List.mem_cons_self t rest))
    exact h1.trans ((h2.append_left (rest.map some)).trans List.perm_middle)

theorem scanFile_ok (lns : List (Option Trace)) :
    ∀ acc, none ∉ lns →
      scanFile emptyFilter acc lns = .ok (acc ++ lns.reduceOption) := by
  induction lns with
  | nil =>
    intro acc _
    simp [scanFile]
  | cons ln rest ih =>
    intro acc h
    match ln with
    | none => exact absurd (List.mem_cons_self none rest) h
    | some t =>
      have hrest : none ∉ rest := fun hc => h (List.mem_cons_of_mem _ hc)
      simp only [scanFile]
      rw [if_neg (by simp [emptyFilter]), if_neg (by simp [emptyFilter]),
        if_neg (by simp [emptyFilter]), if_neg (by simp [emptyFilter]),
        ih (acc ++ [t]) hrest]
      simp [List.reduceOption]

theorem scanAll_ok (parts : List (Nat × List (Option Trace))) :
    ∀ acc, none ∉ linesOf parts →
      scanAll emptyFilter acc parts = .ok (acc ++ (linesOf parts).reduceOption) := by
  induction parts with
  | nil =>
    intro acc _
    simp [scanAll, linesOf]
  | cons part rest ih =>
    obtain ⟨k, lns⟩ := part
    intro acc h
    rw [linesOf_cons] at h
    have h1 : none ∉ lns := fun hc => h (List.mem_append_left _ hc)
    have h2 : none ∉ linesOf rest := fun hc => h (List.mem_append_right _ hc)
    simp only [scanAll, scanFile_ok lns acc h1]
    rw [ih (acc ++ lns.reduceOption) h2]
    simp [linesOf_cons, List.reduceOption, List.filterMap_append, List.append_assoc]

theorem reduceOption_map_some (ts : List Trace) :
    (ts.map some).reduceOption = ts := by
  induction ts with
  | nil => rfl
  | cons t rest ih => simp [List.reduceOption, ih]

/-- C7: appending traces with pairwise-distinct non-zero timestamps to the
empty store and then listing with the empty filter returns exactly that set
of traces, ordered strictly ascending by timestamp. -/
theorem c7_store_roundtrip (ts : List Trace) (now : Nat)
    (hdist : ts.Pairwise (fun a b => a.timestamp ≠ b.timestamp))
    (hnz : ∀ t ∈ ts, t.timestamp ≠ 0) :
    ∃ out,
      (ts.foldl (fun s t => s.Append now t) emptyStore).List emptyFilter = .ok out ∧
      out.Perm ts ∧ out.Pairwise (fun a b => a.timestamp < b.timestamp) := by
  have hperm : (linesOf ((ts.foldl (fun s t => s.Append now t) emptyStore).partitions)).Perm
      (ts.map some) := by
    simpa [emptyStore, linesOf] using foldl_append_lines now ts emptyStore hnz
  have hnone : none ∉ linesOf ((ts.foldl (fun s t => s.Append now t) emptyStore).partitions) := by
    intro hc
    have := hperm.mem_iff.mp hc
    simp at this
  have hlist := scanAll_ok _ [] hnone
  set L := (linesOf ((ts.foldl (fun s t => s.Append now t) emptyStore).partitions)).reduceOption with hL
  have hLts : L.Perm ts := by
    have := hperm.filterMap id
    rw [hL]
    simpa [List.reduceOption, reduceOption_map_some] using this
  refine ⟨sortByTs L, ?_, ?_, ?_⟩
  · simp only [LocalStore.List, hlist]
    simp
  · exact (List.perm_insertionSort tsLE L).trans hLts
  · have hs : (sortByTs L).Pairwise tsLE := List.sorted_insertionSort tsLE L
    have hperm2 : (sortByTs L).Perm ts := (List.perm_insertionSort tsLE L).trans hLts
    have hne : (sortByTs L).Pairwise (fun a b => a.timestamp ≠ b.timestamp) :=
      (hperm2.pairwise_iff (fun {a b} hab => Ne.symm hab)).mpr hdist
    exact (hs.and hne).imp (fun h => Nat.lt_of_le_of_ne h.1 h.2)

/-- C7 witness. -/
theorem c7_witness :
    ∃ out,
      (([c7TraceA, c7TraceB].foldl (fun s t => s.Append 99 t) emptyStore).List
        emptyFilter = .ok out) ∧
      out.Perm [c7TraceA, c7TraceB] ∧
      out.Pairwise (fun a b => a.timestamp < b.timestamp) :=
  c7_store_roundtrip [c7TraceA, c7TraceB] 99 (by decide) (by decide)
